import Mathlib

/-!
Verification of the grid renderer `src/Part2/print_knights.py`.

The program is a single nested loop: for a dimension `N` it builds a
`B × B` character grid with `B = 4 * N + 5`, storing each character both in a
matrix `board` and in a per-row string `row`, and prints each row.  We embed
the per-cell branch structure, the stateful board/row construction, and a
Python-faithful fallible variant (integer `N`, division and modulo that fail
on a zero divisor) and prove the claimed properties.
-/

namespace PrintKnights

/-- Board extent: `B = 4 * N + 5`, from line 2 of the source. -/
def B (N : Nat) : Nat := 4 * N + 5

/-- The character the source's branch tree assigns to cell `(r, c)`
(lines 7-24): separator rows (`r % (N+1) == 0`) get `+`/`-`, content rows get
`|` on block boundaries, the marker `N` inside block-row 3 / block-column 0,
and a blank elsewhere. -/
def cellChar (N r c : Nat) : Char :=
  if r % (N + 1) = 0 then
    if c % (N + 1) > 0 then '-' else '+'
  else
    if c % (N + 1) = 0 then '|'
    else
      if r / (N + 1) = 3 ∧ c / (N + 1) = 0 then 'N'
      else ' '

/-- The string printed for row `r`: the inner loop appends one character per
column `c` in `range B`. -/
def renderRow (N r : Nat) : List Char :=
  (List.range (B N)).map (cellChar N r)

/-- The whole printed output, one list of characters per printed line. -/
def render (N : Nat) : List (List Char) :=
  (List.range (B N)).map (renderRow N)

/-- The per-cell character rule as the specification words it (§4.1):
separator row: `+` when `c mod (N+1) == 0`, else `-`; content row: `|` on
block boundaries, marker `N` in block `(3, 0)`, else blank. -/
def specCell (N r c : Nat) : Char :=
  if r % (N + 1) = 0 then
    if c % (N + 1) = 0 then '+' else '-'
  else
    if c % (N + 1) = 0 then '|'
    else
      if r / (N + 1) = 3 ∧ c / (N + 1) = 0 then 'N'
      else ' '

theorem cellChar_eq_specCell (N r c : Nat) : cellChar N r c = specCell N r c := by
  unfold cellChar specCell
  rcases Nat.eq_zero_or_pos (c % (N + 1)) with h | h
  · simp [h]
  · simp [h, Nat.pos_iff_ne_zero.mp h]

theorem length_render (N : Nat) : (render N).length = B N := by
  simp [render]

theorem length_renderRow (N r : Nat) : (renderRow N r).length = B N := by
  simp [renderRow]

theorem render_getD (N r : Nat) (hr : r < B N) :
    (render N).getD r [] = renderRow N r := by
  rw [render, List.getD_eq_getElem?_getD]
  simp [hr]

theorem renderRow_getD (N r c : Nat) (hc : c < B N) :
    (renderRow N r).getD c ' ' = cellChar N r c := by
  rw [renderRow, List.getD_eq_getElem?_getD]
  simp [hc]

/-- A cell holds the marker exactly when it is an interior cell of the block
at block-row 3, block-column 0. -/
theorem cellChar_eq_marker_iff (N r c : Nat) :
    cellChar N r c = 'N' ↔
      r % (N + 1) ≠ 0 ∧ c % (N + 1) ≠ 0 ∧ r / (N + 1) = 3 ∧ c / (N + 1) = 0 := by
  unfold cellChar
  split_ifs with h1 h2 h3 h4
  · simp [h1]
  · simp [h1]
  · simp [h3]
  · simp [h1, h3, h4]
  · constructor
    · intro h; cases h
    · intro ⟨_, _, h⟩; exact absurd h h4

theorem count_renderRow_of_not_marker_row (N r : Nat)
    (h : ¬(r % (N + 1) ≠ 0 ∧ r / (N + 1) = 3)) :
    (renderRow N r).count 'N' = 0 := by
  rw [renderRow, List.count_eq_countP, List.countP_map, List.countP_eq_zero]
  intro c _
  simp only [Function.comp_apply, beq_iff_eq]
  rw [cellChar_eq_marker_iff]
  rintro ⟨hr, -, hd, -⟩
  exact h ⟨hr, hd⟩

theorem count_renderRow_of_marker_row (N r : Nat)
    (hr : r % (N + 1) ≠ 0) (hd : r / (N + 1) = 3) :
    (renderRow N r).count 'N' = N := by
  rw [renderRow, List.count_eq_countP, List.countP_map]
  have hsplit : B N = (N + 1) + (3 * N + 4) := by unfold B; omega
  rw [hsplit, List.range_add, List.countP_append]
  have h1 : List.countP ((fun x => x == 'N') ∘ cellChar N r) (List.range (N + 1)) = N := by
    rw [List.range_succ_eq_map, List.countP_cons]
    have h0 : ((fun x => x == 'N') ∘ cellChar N r) 0 = false := by
      simp only [Function.comp_apply, beq_eq_false_iff_ne, ne_eq]
      rw [cellChar_eq_marker_iff]
      simp
    rw [h0, if_neg Bool.false_ne_true, Nat.add_zero]
    have hall : ∀ a ∈ List.map Nat.succ (List.range N),
        ((fun x => x == 'N') ∘ cellChar N r) a = true := by
      intro a ha
      rw [List.mem_map] at ha
      obtain ⟨c, hc, rfl⟩ := ha
      have hc' : c < N := List.mem_range.mp hc
      simp only [Function.comp_apply, beq_iff_eq]
      rw [cellChar_eq_marker_iff]
      refine ⟨hr, ?_, hd, ?_⟩
      · rw [Nat.mod_eq_of_lt (by omega)]; omega
      · exact Nat.div_eq_of_lt (by omega)
    rw [List.countP_eq_length.mpr hall, List.length_map, List.length_range]
  have h2 : List.countP ((fun x => x == 'N') ∘ cellChar N r)
      (List.map (fun x => (N + 1) + x) (List.range (3 * N + 4))) = 0 := by
    rw [List.countP_map, List.countP_eq_zero]
    intro c _
    simp only [Function.comp_apply, beq_iff_eq]
    rw [cellChar_eq_marker_iff]
    rintro ⟨-, -, -, hdiv⟩
    have harr : (N + 1) + c = c + (N + 1) * 1 := by omega
    rw [harr, Nat.add_mul_div_left _ _ (Nat.succ_pos N)] at hdiv
    exact Nat.succ_ne_zero _ hdiv
  rw [h1, h2]
  omega

/-- Total marker count of the rendered grid: `N ^ 2`. -/
theorem count_markers (N : Nat) : (render N).flatten.count 'N' = N ^ 2 := by
  rw [List.count_flatten, render, List.map_map]
  have hsplit : B N = (3 * N + 3) + (N + 2) := by unfold B; omega
  rw [hsplit, List.range_add, List.map_append, List.sum_append]
  have h1 : (List.map (List.count 'N' ∘ renderRow N) (List.range (3 * N + 3))).sum = 0 := by
    apply List.sum_eq_zero
    intro x hx
    rw [List.mem_map] at hx
    obtain ⟨r, hr, hx⟩ := hx
    have hr' : r < 3 * N + 3 := List.mem_range.mp hr
    rw [← hx, Function.comp_apply, count_renderRow_of_not_marker_row]
    rintro ⟨-, hd⟩
    have : r / (N + 1) < 3 := Nat.div_lt_of_lt_mul (by omega)
    omega
  have h2 : (List.map (List.count 'N' ∘ renderRow N)
      (List.map (fun x => (3 * N + 3) + x) (List.range (N + 2)))).sum = N * N := by
    rw [List.map_map]
    have hr2 : N + 2 = (N + 1) + 1 := rfl
    rw [hr2, List.range_succ, List.map_append, List.sum_append]
    have hlast : (List.map ((List.count 'N' ∘ renderRow N) ∘ fun x => (3 * N + 3) + x)
        [N + 1]).sum = 0 := by
      simp only [List.map_cons, List.map_nil, List.sum_cons, List.sum_nil,
        Function.comp_apply]
      rw [count_renderRow_of_not_marker_row]
      · rfl
      · rintro ⟨hmod, -⟩
        apply hmod
        have : 3 * N + 3 + (N + 1) = (N + 1) * 4 := by omega
        rw [this, Nat.mul_mod_right]
    rw [hlast, Nat.add_zero]
    rw [List.range_succ_eq_map, List.map_cons, List.sum_cons]
    have hzero : ((List.count 'N' ∘ renderRow N) ∘ fun x => (3 * N + 3) + x) 0 = 0 := by
      simp only [Function.comp_apply, Nat.add_zero]
      rw [count_renderRow_of_not_marker_row]
      rintro ⟨hmod, -⟩
      apply hmod
      have : 3 * N + 3 = (N + 1) * 3 := by omega
      rw [this, Nat.mul_mod_right]
    rw [hzero, Nat.zero_add, List.map_map]
    have hconst : List.map (((List.count 'N' ∘ renderRow N) ∘ fun x => (3 * N + 3) + x) ∘
        Nat.succ) (List.range N) = List.map (Function.const Nat N) (List.range N) := by
      apply List.map_congr_left
      intro c hc
      have hc' : c < N := List.mem_range.mp hc
      simp only [Function.comp_apply, Function.const_apply]
      apply count_renderRow_of_marker_row
      · have : 3 * N + 3 + Nat.succ c = (N + 1) * 3 + (c + 1) := by omega
        rw [this, Nat.mul_add_mod]
        rw [Nat.mod_eq_of_lt (by omega)]
        omega
      · have : 3 * N + 3 + Nat.succ c = (c + 1) + (N + 1) * 3 := by omega
        rw [this, Nat.add_mul_div_left _ _ (Nat.succ_pos N)]
        rw [Nat.div_eq_of_lt (by omega)]
    rw [hconst, List.map_const, List.length_range, List.sum_replicate, smul_eq_mul]
  rw [h1, h2, Nat.zero_add, Nat.pow_two]

theorem cellChar_sep (N r c : Nat) (h : r % (N + 1) = 0) :
    cellChar N r c = if c % (N + 1) > 0 then '-' else '+' := by
  unfold cellChar
  rw [if_pos h]

theorem cellChar_content_bar (N r c : Nat) (h : r % (N + 1) ≠ 0)
    (hc : c % (N + 1) = 0) : cellChar N r c = '|' := by
  unfold cellChar
  rw [if_neg h, if_pos hc]

theorem map_sep_blocks (N r : Nat) (h : r % (N + 1) = 0) (j : Nat) :
    (List.range (j * (N + 1))).map (cellChar N r) =
      (List.replicate j ('+' :: List.replicate N '-')).flatten := by
  induction j with
  | zero => simp
  | succ j ih =>
    have hj : (j + 1) * (N + 1) = j * (N + 1) + (N + 1) := by ring
    rw [hj, List.range_add, List.map_append, ih, List.map_map,
      List.replicate_succ', List.flatten_append]
    congr 1
    rw [List.range_succ_eq_map, List.map_cons]
    have hhead : (cellChar N r ∘ fun x => j * (N + 1) + x) 0 = '+' := by
      simp only [Function.comp_apply, Nat.add_zero]
      rw [cellChar_sep N r _ h, if_neg]
      simp [Nat.mul_mod_left]
    rw [hhead, List.map_map]
    have htail : List.map ((cellChar N r ∘ fun x => j * (N + 1) + x) ∘ Nat.succ)
        (List.range N) = List.map (Function.const Nat '-') (List.range N) := by
      apply List.map_congr_left
      intro c hc
      have hc' : c < N := List.mem_range.mp hc
      simp only [Function.comp_apply, Function.const_apply]
      rw [cellChar_sep N r _ h, if_pos]
      have harr : j * (N + 1) + Nat.succ c = (N + 1) * j + (c + 1) := by
        rw [Nat.mul_comm]
      rw [harr, Nat.mul_add_mod, Nat.mod_eq_of_lt (by omega)]
      omega
    rw [htail, List.map_const, List.length_range]
    simp

/-- Every separator row is the four-block border pattern:
`+` followed by `N` dashes, four times, then a closing `+`. -/
theorem renderRow_sep_pattern (N r : Nat) (h : r % (N + 1) = 0) :
    renderRow N r =
      (List.replicate 4 ('+' :: List.replicate N '-')).flatten ++ ['+'] := by
  have hB : B N = 4 * (N + 1) + 1 := by unfold B; ring
  rw [renderRow, hB, List.range_succ, List.map_append, map_sep_blocks N r h 4]
  congr 1
  simp only [List.map_cons, List.map_nil]
  rw [cellChar_sep N r _ h, if_neg]
  simp [Nat.mul_mod_left]

/-! ### Python-faithful fallible model

`N` in the source is an arbitrary integer literal; Python's `%` and `//` are
floored modulo and division, and both raise `ZeroDivisionError` on a zero
divisor (and only then), while `range(B)` is empty for `B ≤ 0`.  This model
makes those semantics explicit so the failure behaviour can be settled. -/

/-- Python `%` on integers: floored modulo, failing exactly on a zero
divisor. -/
def pymod (a m : Int) : Except Unit Int :=
  if m = 0 then .error () else .ok (Int.fmod a m)

/-- Python `//` on integers: floored division, failing exactly on a zero
divisor. -/
def pyfloordiv (a m : Int) : Except Unit Int :=
  if m = 0 then .error () else .ok (Int.fdiv a m)

/-- Python `range(n)` as a list of integers: `0, …, n-1`, empty for
`n ≤ 0`. -/
def intRange (n : Int) : List Int :=
  (List.range n.toNat).map Int.ofNat

/-- Run a fallible computation over a list in order, stopping at the first
failure — the behaviour of a Python `for` loop whose body may raise. -/
def mapE {α β : Type} (f : α → Except Unit β) : List α → Except Unit (List β)
  | [] => .ok []
  | x :: xs =>
    match f x with
    | .error e => .error e
    | .ok y =>
      match mapE f xs with
      | .error e => .error e
      | .ok ys => .ok (y :: ys)

/-- The branch tree of lines 7-24 with Python's fallible `%` and `//`,
evaluated in source order (in particular the `and` on line 19
short-circuits). -/
def cellCharE (N r c : Int) : Except Unit Char :=
  match pymod r (N + 1) with
  | .error e => .error e
  | .ok rm =>
    if rm = 0 then
      match pymod c (N + 1) with
      | .error e => .error e
      | .ok cm => if cm > 0 then .ok '-' else .ok '+'
    else
      match pymod c (N + 1) with
      | .error e => .error e
      | .ok cm =>
        if cm = 0 then .ok '|'
        else
          match pyfloordiv r (N + 1) with
          | .error e => .error e
          | .ok rd =>
            if rd = 3 then
              match pyfloordiv c (N + 1) with
              | .error e => .error e
              | .ok cd => if cd = 0 then .ok 'N' else .ok ' '
            else .ok ' '

/-- The inner loop of the fallible model: one row of characters. -/
def renderRowE (N r : Int) : Except Unit (List Char) :=
  mapE (cellCharE N r) (intRange (4 * N + 5))

/-- The whole renderer in the fallible model. -/
def renderE (N : Int) : Except Unit (List (List Char)) :=
  mapE (renderRowE N) (intRange (4 * N + 5))

theorem mapE_ok {α β : Type} (f : α → Except Unit β) (g : α → β)
    (l : List α) (h : ∀ x ∈ l, f x = .ok (g x)) :
    mapE f l = .ok (l.map g) := by
  induction l with
  | nil => rfl
  | cons x xs ih =>
    have h1 := h x (List.mem_cons_self x xs)
    have h2 := ih fun y hy => h y (List.mem_cons_of_mem x hy)
    simp [mapE, h1, h2]

theorem pymod_natCast (a m : Nat) (hm : 0 < m) :
    pymod (a : Int) (m : Int) = .ok ((a % m : Nat) : Int) := by
  unfold pymod
  rw [if_neg (by exact_mod_cast hm.ne'), Int.fmod_eq_emod _ (by positivity)]
  rfl

theorem pyfloordiv_natCast (a m : Nat) (hm : 0 < m) :
    pyfloordiv (a : Int) (m : Int) = .ok ((a / m : Nat) : Int) := by
  unfold pyfloordiv
  rw [if_neg (by exact_mod_cast hm.ne'), Int.fdiv_eq_ediv _ (by positivity)]
  rfl

/-- On natural inputs the fallible cell rule agrees with the pure one. -/
theorem cellCharE_natCast (N r c : Nat) :
    cellCharE (N : Int) (r : Int) (c : Int) = .ok (cellChar N r c) := by
  have hcast : (N : Int) + 1 = ((N + 1 : Nat) : Int) := by push_cast; ring
  unfold cellCharE cellChar
  rw [hcast, pymod_natCast r (N + 1) (Nat.succ_pos N),
    pymod_natCast c (N + 1) (Nat.succ_pos N),
    pyfloordiv_natCast r (N + 1) (Nat.succ_pos N),
    pyfloordiv_natCast c (N + 1) (Nat.succ_pos N)]
  have hD : ((↑(r / (N + 1)) : Int) = 3) ↔ r / (N + 1) = 3 := by
    constructor
    · intro h; exact_mod_cast h
    · intro h; exact_mod_cast h
  simp only [Nat.cast_eq_zero, Nat.cast_pos, hD]
  split_ifs <;> first | rfl | (exfalso; omega)

theorem intRange_natCast (N : Nat) :
    intRange (4 * (N : Int) + 5) = (List.range (B N)).map Int.ofNat := by
  have h : (4 * (N : Int) + 5).toNat = B N := by unfold B; omega
  unfold intRange
  rw [h]

/-- On natural `N` the fallible renderer succeeds and agrees with the pure
renderer. -/
theorem renderE_natCast (N : Nat) : renderE (N : Int) = .ok (render N) := by
  unfold renderE render
  rw [intRange_natCast]
  have hrow : ∀ r : Nat, renderRowE (N : Int) (Int.ofNat r) = .ok (renderRow N r) := by
    intro r
    unfold renderRowE renderRow
    rw [intRange_natCast]
    have h := mapE_ok (cellCharE (N : Int) (Int.ofNat r))
      (fun c => cellChar N r c.toNat) ((List.range (B N)).map Int.ofNat) ?_
    · rw [h, List.map_map]
      congr 1
    · intro x hx
      rw [List.mem_map] at hx
      obtain ⟨c, -, rfl⟩ := hx
      exact cellCharE_natCast N r c
  have h := mapE_ok (renderRowE (N : Int)) (fun r => renderRow N r.toNat)
    ((List.range (B N)).map Int.ofNat) ?_
  · rw [h, List.map_map]
    congr 1
  · intro x hx
    rw [List.mem_map] at hx
    obtain ⟨r, -, rfl⟩ := hx
    exact hrow r

/-- For `N ≤ -2` the extent `4N + 5` is negative, `range` is empty, and the
renderer silently prints nothing — no fault. -/
theorem renderE_of_le_neg_two (N : Int) (h : N ≤ -2) : renderE N = .ok [] := by
  unfold renderE intRange
  rw [Int.toNat_of_nonpos (by omega)]
  rfl

/-- At `N = -1` the very first cell evaluates `0 % 0` and faults. -/
theorem renderE_neg_one : renderE (-1) = .error () := rfl

/-! ### Stateful board / row construction

Lines 3-27 of the source build, in one pass, both a matrix `board` of
`Option Char` cells (initialised to `None`) and a per-row string `row` that is
printed.  We embed that pass as a fold over rows and columns, with one ghost
component: `trace` records the coordinates of every board assignment, in
order, so that "each cell is assigned exactly once" can be stated. -/

/-- `board = [[None] * B for ...]`: `n` rows of `n` unassigned cells. -/
def initBoard (n : Nat) : List (List (Option Char)) :=
  List.replicate n (List.replicate n (none : Option Char))

/-- `board[r][c] = ch`. -/
def setCell (bd : List (List (Option Char))) (r c : Nat) (ch : Char) :
    List (List (Option Char)) :=
  bd.set r ((bd.getD r []).set c (some ch))

/-- Mutable state of the pass: the board and the ghost assignment trace. -/
structure RunState where
  board : List (List (Option Char))
  trace : List (Nat × Nat)

/-- One leaf of the branch tree: `board[r][c] = ch; row += ch`. -/
def put (s : RunState) (row : List Char) (r c : Nat) (ch : Char) :
    RunState × List Char :=
  (⟨setCell s.board r c ch, s.trace ++ [(r, c)]⟩, row ++ [ch])

/-- Body of the inner loop (lines 7-24). -/
def cellStep (N r : Nat) (sr : RunState × List Char) (c : Nat) :
    RunState × List Char :=
  if r % (N + 1) = 0 then
    if c % (N + 1) > 0 then put sr.1 sr.2 r c '-'
    else put sr.1 sr.2 r c '+'
  else
    if c % (N + 1) = 0 then put sr.1 sr.2 r c '|'
    else
      if r / (N + 1) = 3 ∧ c / (N + 1) = 0 then put sr.1 sr.2 r c 'N'
      else put sr.1 sr.2 r c ' '

/-- Body of the outer loop (lines 5-27): run the inner loop on an empty row
string, then print the finished row. -/
def rowStep (N : Nat) (so : RunState × List (List Char)) (r : Nat) :
    RunState × List (List Char) :=
  let inner := (List.range (B N)).foldl (cellStep N r) (so.1, [])
  (inner.1, so.2 ++ [inner.2])

/-- The whole pass for dimension `N`: final state and the printed lines. -/
def runProgram (N : Nat) : RunState × List (List Char) :=
  (List.range (B N)).foldl (rowStep N) (⟨initBoard (B N), []⟩, [])

theorem cellStep_eq (N r c : Nat) (s : RunState) (row : List Char) :
    cellStep N r (s, row) c = put s row r c (cellChar N r c) := by
  unfold cellStep cellChar
  split_ifs <;> rfl

theorem foldl_cellStep (N r : Nat) (cs : List Nat) (s : RunState)
    (row : List Char) :
    cs.foldl (cellStep N r) (s, row) =
      (⟨cs.foldl (fun bd c => setCell bd r c (cellChar N r c)) s.board,
        s.trace ++ cs.map (fun c => (r, c))⟩,
       row ++ cs.map (cellChar N r)) := by
  induction cs generalizing s row with
  | nil => simp
  | cons c cs ih =>
    rw [List.foldl_cons, cellStep_eq, put, ih, List.foldl_cons]
    simp

theorem set_getD_self {α : Type} (l : List α) (i : Nat) (d : α)
    (h : i < l.length) : l.set i (l.getD i d) = l := by
  apply List.ext_getElem
  · simp
  · intro n h1 h2
    by_cases hn : i = n
    · subst hn
      rw [List.getElem_set_self, List.getD_eq_getElem?_getD]
      simp [h2]
    · rw [List.getElem_set_ne hn]

theorem getD_set_self {α : Type} (l : List α) (i : Nat) (a d : α)
    (h : i < l.length) : (l.set i a).getD i d = a := by
  rw [List.getD_eq_getElem?_getD, List.getElem?_set_self h]
  rfl

theorem foldl_setCell (N r : Nat) (cs : List Nat)
    (bd : List (List (Option Char))) (hr : r < bd.length) :
    cs.foldl (fun b c => setCell b r c (cellChar N r c)) bd =
      bd.set r (cs.foldl (fun row c => row.set c (some (cellChar N r c)))
        (bd.getD r [])) := by
  induction cs generalizing bd with
  | nil =>
    rw [List.foldl_nil, List.foldl_nil, set_getD_self _ _ _ hr]
  | cons c cs ih =>
    rw [List.foldl_cons, List.foldl_cons]
    have hr' : r < (setCell bd r c (cellChar N r c)).length := by
      unfold setCell
      rw [List.length_set]
      exact hr
    rw [ih _ hr']
    unfold setCell
    rw [List.set_set, getD_set_self _ _ _ _ hr]

theorem foldl_set_below {α : Type} (f : Nat → α) (l : List α) (m : Nat)
    (h : m ≤ l.length) :
    (List.range m).foldl (fun acc i => acc.set i (f i)) l =
      (List.range m).map f ++ l.drop m := by
  induction m with
  | zero => simp
  | succ m ih =>
    rw [List.range_succ, List.foldl_append, ih (Nat.le_of_succ_le h),
      List.foldl_cons, List.foldl_nil, List.map_append, List.map_cons,
      List.map_nil]
    have hm : m < l.length := h
    rw [List.set_append, if_neg (by simp)]
    simp only [List.length_map, List.length_range, Nat.sub_self]
    rw [List.drop_eq_getElem_cons hm, List.set_cons_zero]
    simp

theorem runProgram_upTo (N k : Nat) (hk : k ≤ B N) :
    (List.range k).foldl (rowStep N) (⟨initBoard (B N), []⟩, []) =
      (⟨(List.range k).map
            (fun r => (List.range (B N)).map (fun c => some (cellChar N r c)))
          ++ List.replicate (B N - k)
              (List.replicate (B N) (none : Option Char)),
        ((List.range k).map
            (fun r => (List.range (B N)).map (fun c => (r, c)))).flatten⟩,
       (List.range k).map (renderRow N)) := by
  induction k with
  | zero => simp [initBoard]
  | succ k ih =>
    have hk' : k ≤ B N := Nat.le_of_succ_le hk
    conv_lhs => rw [List.range_succ, List.foldl_append, ih hk',
      List.foldl_cons, List.foldl_nil]
    unfold rowStep
    rw [foldl_cellStep]
    have hlenA : ((List.range k).map
        (fun r => (List.range (B N)).map (fun c => some (cellChar N r c)))).length
          = k := by simp
    have hlen : (((List.range k).map
        (fun r => (List.range (B N)).map (fun c => some (cellChar N r c))))
          ++ List.replicate (B N - k)
            (List.replicate (B N) (none : Option Char))).length = B N := by
      rw [List.length_append, hlenA, List.length_replicate]
      omega
    have hkb : k < (((List.range k).map
        (fun r => (List.range (B N)).map (fun c => some (cellChar N r c))))
          ++ List.replicate (B N - k)
            (List.replicate (B N) (none : Option Char))).length := by
      rw [hlen]; omega
    rw [foldl_setCell N k _ _ hkb]
    have hgetD : ((((List.range k).map
        (fun r => (List.range (B N)).map (fun c => some (cellChar N r c))))
          ++ List.replicate (B N - k)
            (List.replicate (B N) (none : Option Char)))).getD k []
          = List.replicate (B N) (none : Option Char) := by
      rw [List.getD_append_right _ _ _ _ (by rw [hlenA])]
      rw [hlenA, Nat.sub_self, List.getD_eq_getElem?_getD,
        List.getElem?_replicate, if_pos (by omega)]
      rfl
    rw [hgetD]
    have hfill : (List.range (B N)).foldl
        (fun row c => row.set c (some (cellChar N k c)))
        (List.replicate (B N) (none : Option Char))
          = (List.range (B N)).map (fun c => some (cellChar N k c)) := by
      have h := foldl_set_below (fun c => some (cellChar N k c))
        (List.replicate (B N) (none : Option Char)) (B N)
        (by rw [List.length_replicate])
      rw [h]
      have hd : List.drop (B N) (List.replicate (B N) (none : Option Char))
          = [] := by
        apply List.drop_eq_nil_of_le
        rw [List.length_replicate]
      rw [hd, List.append_nil]
    rw [hfill]
    have hset : ((((List.range k).map
        (fun r => (List.range (B N)).map (fun c => some (cellChar N r c))))
          ++ List.replicate (B N - k)
            (List.replicate (B N) (none : Option Char)))).set k
          ((List.range (B N)).map (fun c => some (cellChar N k c)))
        = ((List.range (k + 1)).map
            (fun r => (List.range (B N)).map (fun c => some (cellChar N r c))))
          ++ List.replicate (B N - (k + 1))
              (List.replicate (B N) (none : Option Char)) := by
      rw [List.set_append, if_neg (by rw [hlenA]; omega), hlenA, Nat.sub_self]
      have hrep : List.replicate (B N - k)
          (List.replicate (B N) (none : Option Char))
            = List.replicate (B N) (none : Option Char)
              :: List.replicate (B N - (k + 1))
                  (List.replicate (B N) (none : Option Char)) := by
        have : B N - k = (B N - (k + 1)) + 1 := by omega
        rw [this, List.replicate_succ]
      rw [hrep, List.set_cons_zero, List.range_succ, List.map_append,
        List.append_assoc]
      rfl
    rw [hset]
    have htr : (((List.range (k + 1)).map
        (fun r => (List.range (B N)).map (fun c => (r, c))))).flatten
          = (((List.range k).map
              (fun r => (List.range (B N)).map (fun c => (r, c))))).flatten
            ++ (List.range (B N)).map (fun c => (k, c)) := by
      rw [List.range_succ, List.map_append, List.flatten_append]
      simp
    have houts : (List.range (k + 1)).map (renderRow N)
        = (List.range k).map (renderRow N)
          ++ [(List.range (B N)).map (cellChar N k)] := by
      rw [List.range_succ, List.map_append]
      rfl
    simp [htr, houts]

/-- Full characterisation of the pass: the final board is the pure rendering
with every cell assigned, the ghost trace lists every cell exactly once in
loop order, and the printed lines are the pure rendering. -/
theorem runProgram_eq (N : Nat) :
    runProgram N =
      (⟨(render N).map (List.map some),
        (List.range (B N)).product (List.range (B N))⟩,
       render N) := by
  unfold runProgram
  rw [runProgram_upTo N (B N) (Nat.le_refl (B N))]
  rw [Nat.sub_self]
  have hprod : ((List.range (B N)).map
      (fun r => (List.range (B N)).map (fun c => (r, c)))).flatten
        = (List.range (B N)).product (List.range (B N)) := by
    rw [List.product, List.flatMap_def]
  rw [hprod]
  have hboard : (List.range (B N)).map
      (fun r => (List.range (B N)).map (fun c => some (cellChar N r c)))
        = (render N).map (List.map some) := by
    rw [render, List.map_map]
    apply List.map_congr_left
    intro r _
    rw [Function.comp_apply, renderRow, List.map_map]
    rfl
  rw [hboard]
  simp [render]

/-! ### Claims -/

/-- Claim C1, counterexample: at `N = 2` (which satisfies `N ≥ 1`) the grid
contains four `N` markers, not exactly one. -/
theorem claim1_counterexample :
    1 ≤ 2 ∧ (render 2).flatten.count 'N' = 4 ∧
      (render 2).flatten.count 'N' ≠ 1 := by
  refine ⟨by decide, by decide, by decide⟩

/-- Claim C1 (amended): for every `N ≥ 1` the grid contains exactly `N ^ 2`
marker characters `N` (one only when `N = 1`), and every cell holding a
marker lies in the block at block-row 3, block-column 0, off the separator
lines. -/
theorem claim1_theorem (N : Nat) (h : 1 ≤ N) :
    (render N).flatten.count 'N' = N ^ 2 ∧
    ∀ r c : Nat, r < 4 * N + 5 → c < 4 * N + 5 →
      ((render N).getD r []).getD c ' ' = 'N' →
        r % (N + 1) ≠ 0 ∧ c % (N + 1) ≠ 0 ∧
          r / (N + 1) = 3 ∧ c / (N + 1) = 0 := by
  refine ⟨count_markers N, ?_⟩
  intro r c hr hc hch
  rw [render_getD N r hr, renderRow_getD N r c hc] at hch
  exact (cellChar_eq_marker_iff N r c).mp hch

/-- Claim C1, witness at `N = 1`. -/
theorem claim1_witness :
    1 ≤ 1 ∧
    ((render 1).flatten.count 'N' = 1 ^ 2 ∧
    ∀ r c : Nat, r < 4 * 1 + 5 → c < 4 * 1 + 5 →
      ((render 1).getD r []).getD c ' ' = 'N' →
        r % (1 + 1) ≠ 0 ∧ c % (1 + 1) ≠ 0 ∧
          r / (1 + 1) = 3 ∧ c / (1 + 1) = 0) :=
  ⟨by decide, claim1_theorem 1 (by decide)⟩

/-- Claim C2, counterexample: for `N = 2` the first output line is
`+--+--+--+--+`, not `+---+---+---+`. -/
theorem claim2_counterexample :
    (render 2).getD 0 [] ≠ "+---+---+---+".data ∧
    (render 2).getD 0 [] = "+--+--+--+--+".data := by
  refine ⟨by decide, by decide⟩

/-- Claim C2 (amended): for `N = 2` the first output line equals
`+--+--+--+--+`, the instance of the general separator pattern: `+` then `N`
dashes, repeated four times, followed by a closing `+`. -/
theorem claim2_theorem :
    (render 2).getD 0 [] = "+--+--+--+--+".data ∧
    ∀ N : Nat, (render N).getD 0 []
      = (List.replicate 4 ('+' :: List.replicate N '-')).flatten ++ ['+'] := by
  refine ⟨by decide, ?_⟩
  intro N
  rw [render_getD N 0 (by unfold B; omega),
    renderRow_sep_pattern N 0 (Nat.zero_mod (N + 1))]

/-- Claim C3: for every `N ≥ 0` the renderer emits `4N + 5` lines of
`4N + 5` characters, each character given by the per-cell rule of §4.1; in
particular 13 lines of 13 characters for `N = 2`. -/
theorem claim3_theorem (N : Nat) :
    (render N).length = 4 * N + 5 ∧
    (∀ r : Nat, r < 4 * N + 5 → ((render N).getD r []).length = 4 * N + 5) ∧
    (∀ r c : Nat, r < 4 * N + 5 → c < 4 * N + 5 →
      ((render N).getD r []).getD c ' ' = specCell N r c) ∧
    (render 2).length = 13 ∧ (∀ row ∈ render 2, row.length = 13) := by
  refine ⟨length_render N, ?_, ?_, by decide, by decide⟩
  · intro r hr
    rw [render_getD N r hr]
    exact length_renderRow N r
  · intro r c hr hc
    rw [render_getD N r hr, renderRow_getD N r c hc, cellChar_eq_specCell]

/-- Claim C3, witness at `N = 2`, cell `(3, 5)`. -/
theorem claim3_witness :
    (3 : Nat) < 4 * 2 + 5 ∧ (5 : Nat) < 4 * 2 + 5 ∧
    ((render 2).getD 3 []).getD 5 ' ' = specCell 2 3 5 :=
  ⟨by decide, by decide, (claim3_theorem 2).2.2.1 3 5 (by decide) (by decide)⟩

/-- Claim C4: every separator row (`r mod (N+1) = 0`) consists solely of `+`
and `-` characters. -/
theorem claim4_theorem (N r : Nat) (hr : r < 4 * N + 5)
    (h0 : r % (N + 1) = 0) :
    ∀ ch ∈ (render N).getD r [], ch = '+' ∨ ch = '-' := by
  intro ch hch
  rw [render_getD N r hr, renderRow, List.mem_map] at hch
  obtain ⟨c, -, rfl⟩ := hch
  rw [cellChar_sep N r c h0]
  split_ifs
  · right; rfl
  · left; rfl

/-- Claim C4, witness at `N = 2`, row 3. -/
theorem claim4_witness :
    (3 : Nat) < 4 * 2 + 5 ∧ 3 % (2 + 1) = 0 ∧
    ∀ ch ∈ (render 2).getD 3 [], ch = '+' ∨ ch = '-' :=
  ⟨by decide, by decide, claim4_theorem 2 3 (by decide) (by decide)⟩

/-- Claim C5: every content row (`r mod (N+1) ≠ 0`) starts with `|`, ends
with `|` (column `4N + 4` is the last), and has `|` at every column that is a
multiple of `N + 1`. -/
theorem claim5_theorem (N r : Nat) (hr : r < 4 * N + 5)
    (h0 : r % (N + 1) ≠ 0) :
    ((render N).getD r []).getD 0 ' ' = '|' ∧
    ((render N).getD r []).getD (4 * N + 4) ' ' = '|' ∧
    ∀ c : Nat, c < 4 * N + 5 → c % (N + 1) = 0 →
      ((render N).getD r []).getD c ' ' = '|' := by
  have key : ∀ c : Nat, c < 4 * N + 5 → c % (N + 1) = 0 →
      ((render N).getD r []).getD c ' ' = '|' := by
    intro c hc hcm
    rw [render_getD N r hr, renderRow_getD N r c hc,
      cellChar_content_bar N r c h0 hcm]
  refine ⟨key 0 (by omega) (Nat.zero_mod _), key (4 * N + 4) (by omega) ?_, key⟩
  have h4 : 4 * N + 4 = (N + 1) * 4 := by ring
  rw [h4, Nat.mul_mod_right]

/-- Claim C5, witness at `N = 2`, row 1. -/
theorem claim5_witness :
    (1 : Nat) < 4 * 2 + 5 ∧ 1 % (2 + 1) ≠ 0 ∧
    (((render 2).getD 1 []).getD 0 ' ' = '|' ∧
    ((render 2).getD 1 []).getD (4 * 2 + 4) ' ' = '|' ∧
    ∀ c : Nat, c < 4 * 2 + 5 → c % (2 + 1) = 0 →
      ((render 2).getD 1 []).getD c ' ' = '|') :=
  ⟨by decide, by decide, claim5_theorem 2 1 (by decide) (by decide)⟩

/-- Claim C6: for `N = 0` the renderer produces a well-defined 5×5 grid made
only of the border characters `+` and `-` (in fact all `+`), and the fallible
model confirms there is no arithmetic fault. -/
theorem claim6_theorem :
    (render 0).length = 5 ∧
    (∀ row ∈ render 0, row.length = 5) ∧
    (∀ row ∈ render 0, ∀ ch ∈ row, ch = '+' ∨ ch = '-') ∧
    renderE 0 = .ok (render 0) := by
  refine ⟨by decide, by decide, by decide, ?_⟩
  exact renderE_natCast 0

/-- Claim C7, counterexample: at `N = -2` we have `N + 1 ≤ 0`, yet the
program runs without any fault — `B = -3`, the loop body never executes and
nothing is printed. -/
theorem claim7_counterexample :
    (-2 : Int) + 1 ≤ 0 ∧ renderE (-2) = .ok [] ∧
      renderE (-2) ≠ .error () := by
  refine ⟨by decide, renderE_of_le_neg_two (-2) (by decide), ?_⟩
  rw [renderE_of_le_neg_two (-2) (by decide)]
  intro h
  cases h

/-- Claim C7 (amended): the renderer faults exactly when `N = -1` (the only
case with `N + 1 = 0` and a positive extent); for every natural `N` it
succeeds with the pure rendering, and for `N ≤ -2` the loop never runs. -/
theorem claim7_theorem :
    (∀ N : Int, (renderE N = .error () ↔ N = -1)) ∧
    (∀ n : Nat, renderE (n : Int) = .ok (render n)) := by
  refine ⟨?_, renderE_natCast⟩
  intro N
  constructor
  · intro h
    by_contra hne
    rcases lt_trichotomy N (-1) with hlt | heq | hgt
    · rw [renderE_of_le_neg_two N (by omega)] at h
      cases h
    · exact hne heq
    · obtain ⟨n, rfl⟩ := Int.eq_ofNat_of_zero_le (show (0 : Int) ≤ N by omega)
      rw [renderE_natCast n] at h
      cases h
  · rintro rfl
    exact renderE_neg_one

/-- Claim C8: the renderer is deterministic — the printed output of the
stateful pass is the same on every run, being a pure per-cell function of
`(row, column, N)` alone. -/
theorem claim8_theorem (N : Nat) :
    (runProgram N).2 = (runProgram N).2 ∧
    (runProgram N).2 = (List.range (4 * N + 5)).map
      (fun r => (List.range (4 * N + 5)).map (fun c => cellChar N r c)) := by
  refine ⟨rfl, ?_⟩
  rw [runProgram_eq]
  simp [render, renderRow]
  rfl

/-- Claim C9: the board matrix and the printed output agree — after the
pass, `board` is exactly the printed grid with every cell assigned
(`some`), and the ghost assignment trace covers each of the `B × B` cells
exactly once (no cell left `None`, none written twice). -/
theorem claim9_theorem (N : Nat) :
    (runProgram N).1.board = ((runProgram N).2).map (List.map some) ∧
    (runProgram N).2 = render N ∧
    (runProgram N).1.trace.Nodup ∧
    ∀ p : Nat × Nat,
      p ∈ (runProgram N).1.trace ↔ p.1 < 4 * N + 5 ∧ p.2 < 4 * N + 5 := by
  rw [runProgram_eq]
  refine ⟨rfl, rfl, ?_, ?_⟩
  · exact List.Nodup.product (List.nodup_range _) (List.nodup_range _)
  · rintro ⟨x, y⟩
    rw [List.pair_mem_product, List.mem_range, List.mem_range]
    rfl

/-- Claim C10: the grid contains exactly `N ^ 2` marker characters — zero
for `N = 0`, and for `N = 2` the four cells `(10,1), (10,2), (11,1),
(11,2)`. -/
theorem claim10_theorem (N : Nat) :
    (render N).flatten.count 'N' = N ^ 2 ∧
    (render 0).flatten.count 'N' = 0 ∧
    ((render 2).getD 10 []).getD 1 ' ' = 'N' ∧
    ((render 2).getD 10 []).getD 2 ' ' = 'N' ∧
    ((render 2).getD 11 []).getD 1 ' ' = 'N' ∧
    ((render 2).getD 11 []).getD 2 ' ' = 'N' :=
  ⟨count_markers N, by decide, by decide, by decide, by decide, by decide⟩

end PrintKnights
